import Mathlib

/-!
Formal model of the csv_to_db ingestion pipeline.

The definitions below are a shallow embedding of the Python sources
`src/src/preprocessor.py` (class `CsvPreprocessor`) and, where the pipeline
touches the store, the narrow interface of `src/src/db.py`
(`DatabaseManager.import_dataframe`, `execute_query`).  Pure string and list
manipulation is translated directly; the filesystem is modelled as a function
from a file identity (the plain path, or "zipPath::member" for archive
members, as built by `find_csv_files`) to its optional line content, and the
outcome of each store import as a boolean per file.  All functions are
structurally recursive so that concrete runs evaluate inside the kernel.
-/

namespace CsvToDb

/-! ### String utilities (model of the Python `str` operations used) -/

/-- Whitespace characters removed by the Python `str.strip()` calls in
`preprocessor.py` (space, tab, newline, carriage return). -/
def isPySpace (c : Char) : Bool :=
  decide (c = ' ') || decide (c = '\t') || decide (c = '\n') || decide (c = '\r')

/-- Strip leading and trailing whitespace from a character list. -/
def trimChars (l : List Char) : List Char :=
  ((l.dropWhile isPySpace).reverse.dropWhile isPySpace).reverse

/-- Model of Python `str.strip()`. -/
def trimS (s : String) : String :=
  ⟨trimChars s.data⟩

/-- Splitting helper: accumulates the current field in reverse. -/
def splitOnCharAux (sep : Char) : List Char → List Char → List String
  | [], acc => [⟨acc.reverse⟩]
  | c :: cs, acc =>
    if c = sep then ⟨acc.reverse⟩ :: splitOnCharAux sep cs []
    else splitOnCharAux sep cs (c :: acc)

/-- Model of Python `str.split(sep)` with a single-character separator. -/
def splitOnChar (sep : Char) (s : String) : List String :=
  splitOnCharAux sep s.data []

/-- Model of Python `str.endswith(",")`. -/
def endsWithComma (s : String) : Bool :=
  match s.data.getLast? with
  | some c => decide (c = ',')
  | none => false

/-- Numeric field parser used by the timestamp model: all characters must be
digits. -/
def parseNatS (s : String) : Option Nat :=
  if s.data ≠ [] ∧ s.data.all Char.isDigit then
    some (s.data.foldl (fun n c => n * 10 + (c.toNat - 48)) 0)
  else none

/-! ### List utilities -/

/-- `Option`-valued traversal, all-or-nothing; models the strict behaviour of
`polars.Series.str.to_datetime` which fails if any value fails. -/
def mapOption (f : α → Option β) : List α → Option (List β)
  | [] => some []
  | a :: l =>
    match f a, mapOption f l with
    | some b, some bs => some (b :: bs)
    | _, _ => none

/-- Chunking helper, fuel-indexed so that it is structurally recursive.  The
fuel bounds the number of chunks and is instantiated with the length of the
list in `chunks`, which suffices because every chunk consumes at least one
element. -/
def chunksAux (bs : Nat) : Nat → List α → List (List α)
  | _, [] => []
  | 0, l => [l]
  | fuel + 1, x :: xs =>
      (x :: xs.take (bs - 1)) :: chunksAux bs fuel (xs.drop (bs - 1))

/-- Model of the Python batching loop `for i in range(0, len(l), bs):
batch = l[i : i + bs]` (meaningful for `bs ≥ 1`; Python raises on `bs = 0`). -/
def chunks (bs : Nat) (l : List α) : List (List α) :=
  chunksAux bs l.length l

/-! ### Data model -/

inductive LogLevel
  | debug
  | info
  | warn
  | error
deriving DecidableEq

/-- One emitted log event (level and an identifying tag). -/
structure LogEvent where
  level : LogLevel
  tag : String
deriving DecidableEq

/-- The configuration fields of `PreprocessorConfig` that the transform
consumes (plant, machine id, data label metadata literals). -/
structure PreprocessorConfig where
  plant : String
  machine_id : String
  data_label : String
deriving DecidableEq

/-- A parsed calendar timestamp, as produced by the two supported formats. -/
structure Timestamp where
  year : Nat
  month : Nat
  day : Nat
  hour : Nat
  minute : Nat
  second : Nat
deriving DecidableEq

/-- A TIME value: either a parsed timestamp or the original text kept after
both datetime formats failed. -/
inductive TimeVal
  | dt (t : Timestamp)
  | text (s : String)
deriving DecidableEq

/-- One long-format record, with the columns built in
`CsvPreprocessor._transform_to_vertical`. -/
structure LongRecord where
  PLANT : String
  MACHINE_ID : String
  DATA_LABEL : String
  TIME : TimeVal
  SENSOR_ID : String
  SENSOR_NAME : String
  SENSOR_UNIT : String
  VALUE : String
  file_name : String
deriving DecidableEq

/-- The `headers` dictionary built by `_read_special_csv`: the three header
rows with the leading placeholder field removed. -/
structure Headers where
  sensor_ids : List String
  sensor_names : List String
  sensor_units : List String
deriving DecidableEq

/-- The data frame built from the accepted data rows.  `header` is the raw
column list `["TIME"] + sensor_ids[1:]`; each row keeps the first
`header.length` fields of its line, positionally. -/
structure Df where
  header : List String
  rows : List (List String)
deriving DecidableEq

/-- The value returned by `_read_special_csv` on success. -/
structure ReadData where
  headers : Headers
  df : Df
deriving DecidableEq

/-! ### Wide-format reader (`CsvPreprocessor._read_special_csv`, lines
264-323; the archive branch in `process_file`, lines 84-145, applies the same
parsing to the member content) -/

/-- Header-line parsing: strip the line, split on commas, strip each field. -/
def parseHeaderLine (line : String) : List String :=
  (splitOnChar ',' (trimS line)).map trimS

/-- Data-line preprocessing: when the stripped line ends with a comma, strip
the line and remove exactly that one final character; otherwise the line is
kept as is (lines 289-293). -/
def stripTrailingComma (line : String) : String :=
  if endsWithComma (trimS line) then ⟨(trimS line).data.dropLast⟩ else line

/-- Field extraction from a data line: split on commas, strip each field
(line 302). -/
def lineValues (line : String) : List String :=
  (splitOnChar ',' line).map trimS

/-- Row acceptance (lines 303-307): a line is kept only when it has at least
as many fields as there are columns; the fields are assigned positionally and
any surplus beyond the column count is ignored. -/
def processRow (columns : List String) (line : String) : Option (List String) :=
  let values := lineValues line
  if columns.length ≤ values.length then some (values.take columns.length) else none

/-- The error logged when a source has fewer than the required 4 lines. -/
def insufficientRowsEvent : LogEvent :=
  ⟨LogLevel.error, "row count insufficient"⟩

/-- `_read_special_csv`: requires 3 header lines plus at least one data line;
builds the header triple (dropping the placeholder first field of each header
line), preprocesses each data line, and keeps the accepted rows.  Note that
no log event of any kind is emitted for a dropped data line.  The second
component is the list of emitted log events. -/
def readSpecialCsv : List String → Option ReadData × List LogEvent
  | l0 :: l1 :: l2 :: d0 :: ds =>
    let sensor_ids := parseHeaderLine l0
    let sensor_names := parseHeaderLine l1
    let sensor_units := parseHeaderLine l2
    let data_lines := (d0 :: ds).map stripTrailingComma
    let columns := "TIME" :: sensor_ids.tail
    let rows := data_lines.filterMap (processRow columns)
    (some ⟨⟨sensor_ids.tail, sensor_names.tail, sensor_units.tail⟩, ⟨columns, rows⟩⟩, [])
  | _ => (none, [insufficientRowsEvent])

/-! ### Wide-to-long transform (`CsvPreprocessor._transform_to_vertical`,
lines 523-635) -/

/-- Model of `strptime` with format `%Y<sep>%m<sep>%d %H:%M:%S`: numeric
fields with calendar range checks.  The claims under verification concern the
two-format fallback structure, not `strptime` edge cases. -/
def parseDateTimeSep (sep : Char) (s : String) : Option Timestamp :=
  match splitOnChar ' ' s with
  | [datePart, timePart] =>
    match splitOnChar sep datePart, splitOnChar ':' timePart with
    | [ys, mos, das], [hs, mis, ss] =>
      match parseNatS ys, parseNatS mos, parseNatS das,
            parseNatS hs, parseNatS mis, parseNatS ss with
      | some y, some mo, some da, some h, some mi, some se =>
        if 1 ≤ mo ∧ mo ≤ 12 ∧ 1 ≤ da ∧ da ≤ 31 ∧ h ≤ 23 ∧ mi ≤ 59 ∧ se ≤ 59 then
          some ⟨y, mo, da, h, mi, se⟩
        else none
      | _, _, _, _, _, _ => none
    | _, _ => none
  | _ => none

/-- The warning logged when both datetime formats fail (lines 553-557). -/
def timeParseWarnEvent : LogEvent :=
  ⟨LogLevel.warn, "datetime conversion failed"⟩

/-- TIME-column conversion (lines 542-557): first try `%Y/%m/%d %H:%M:%S` on
the whole column, then `%Y-%m-%d %H:%M:%S`; when both fail, keep the values
as text and log a warning.  The conversion is all-or-nothing per column,
matching the strict behaviour of `str.to_datetime` on a `polars` column. -/
def parseTimeColumn (col : List String) : List TimeVal × List LogEvent :=
  match mapOption (parseDateTimeSep '/') col with
  | some ts => (ts.map TimeVal.dt, [])
  | none =>
    match mapOption (parseDateTimeSep '-') col with
    | some ts => (ts.map TimeVal.dt, [])
    | none => (col.map TimeVal.text, [timeParseWarnEvent])

/-- Column lookup in a row, mirroring the Python dict construction
`row_data[col] = values[i]` over the raw column list: with duplicate column
names the assignment written last wins, so the value is taken at the last
index of the column name. -/
def dictGet (header : List String) (row : List String) (c : String) : String :=
  match (header.zip row).reverse.find? (fun e => decide (e.1 = c)) with
  | some e => e.2
  | none => ""

/-- Processing of one sensor in the transform loop (lines 569-608): skip with
a warning when the sensor index has no name or unit entry, skip with a
warning when the sensor id is not a column of the frame, otherwise emit one
record per data row with the metadata literals attached. -/
def sensorRecords (cfg : PreprocessorConfig) (data : ReadData) (fileName : String)
    (timeVals : List TimeVal) (idx : Nat) (sid : String) :
    List LongRecord × List LogEvent :=
  if idx < data.headers.sensor_names.length ∧ idx < data.headers.sensor_units.length then
    if sid ∈ data.df.header then
      ((timeVals.zip (data.df.rows.map (fun r => dictGet data.df.header r sid))).map
        (fun q =>
          { PLANT := cfg.plant
            MACHINE_ID := cfg.machine_id
            DATA_LABEL := cfg.data_label
            TIME := q.1
            SENSOR_ID := sid
            SENSOR_NAME := data.headers.sensor_names.getD idx ""
            SENSOR_UNIT := data.headers.sensor_units.getD idx ""
            VALUE := q.2
            file_name := fileName }), [])
    else ([], [⟨LogLevel.warn, "sensor column not found"⟩])
  else ([], [⟨LogLevel.warn, "sensor metadata not found"⟩])

/-- `_transform_to_vertical`: convert the TIME column, then process the
sensors in batches of 10 and concatenate the per-sensor frames.  When the
frame has no rows the column selection at line 557 raises (an empty `polars`
frame has no columns), which the caller turns into a skipped file; this is
the `none` case.  The result pairs the records with the emitted log
events. -/
def transformToVertical (cfg : PreprocessorConfig) (data : ReadData)
    (fileName : String) : Option (List LongRecord × List LogEvent) :=
  match data.df.rows with
  | [] => none
  | _ :: _ =>
    let timeCol := data.df.rows.map (fun r => dictGet data.df.header r "TIME")
    let parsed := parseTimeColumn timeCol
    let perSensor := data.headers.sensor_ids.enum.map
      (fun p => sensorRecords cfg data fileName parsed.1 p.1 p.2)
    some ((chunks 10 perSensor).flatMap (fun batch => batch.flatMap Prod.fst),
          parsed.2 ++ perSensor.flatMap Prod.snd)

/-! ### Content hash and processed-file ledger
(`_calculate_file_hash`, `_is_processed`, `_mark_as_processed`,
lines 203-262) -/

/-- The filesystem model: a file identity (plain path, or the composite
"zipPath::member" string) maps to its line content, or `none` when the file,
archive or member cannot be opened. -/
abbrev FsModel := String → Option (List String)

/-- Model of the MD5 hex digest: a deterministic, always non-empty encoding
of the content.  The claims need determinism and non-emptiness of digests of
readable content, not collision resistance. -/
def md5Hex (content : List String) : String :=
  ⟨'h' :: content.flatMap (fun s => '\n' :: s.data)⟩

/-- `_calculate_file_hash`: hash the content of a plain file, or of an
archive member (the branch chosen on "::" in the identity hashes the member
content the same way); on any failure the error is logged and the empty
string is returned instead of raising. -/
def calculateFileHash (fs : FsModel) (path : String) : String :=
  match fs path with
  | some content => md5Hex content
  | none => ""

/-- The persisted ledger: file identity mapped to the stored hash field of
its entry (the timestamp field plays no role in any claim). -/
abbrev Ledger := List (String × String)

def ledgerLookup (L : Ledger) (p : String) : Option String :=
  (L.find? (fun e => decide (e.1 = p))).map Prod.snd

/-- `_is_processed`: true iff the ledger has an entry for this identity and
its stored hash equals the hash of the current content. -/
def isProcessed (fs : FsModel) (L : Ledger) (p : String) : Bool :=
  match ledgerLookup L p with
  | some h => decide (h = calculateFileHash fs p)
  | none => false

/-- `_mark_as_processed`: upsert the entry for this identity with the current
content hash (then the whole mapping is rewritten to disk). -/
def markAsProcessed (fs : FsModel) (L : Ledger) (p : String) : Ledger :=
  (p, calculateFileHash fs p) :: L.filter (fun e => decide (e.1 ≠ p))

/-! ### Per-file pipeline (`CsvPreprocessor.process_file`, lines 51-176) -/

/-- The ledger-independent part of `process_file`: read the file (plain or
archive member, same parsing) and transform it.  `none` models every caught
per-file failure (unreadable source, fewer than 4 lines, empty frame). -/
def preprocessResult (cfg : PreprocessorConfig) (fs : FsModel) (path : String) :
    Option (List LongRecord) :=
  match fs path with
  | none => none
  | some lines =>
    match (readSpecialCsv lines).1 with
    | none => none
    | some data => (transformToVertical cfg data path).map Prod.fst

/-- `process_file`: skip when already processed; otherwise read and
transform, and on success mark the file processed before returning the
records to the caller.  The store import performed by the caller happens
after this mark. -/
def processFile (cfg : PreprocessorConfig) (fs : FsModel) (L : Ledger)
    (path : String) : Option (List LongRecord) × Ledger :=
  if isProcessed fs L path then (none, L)
  else
    match fs path with
    | none => (none, L)
    | some lines =>
      match (readSpecialCsv lines).1 with
      | none => (none, L)
      | some data =>
        match transformToVertical cfg data path with
        | none => (none, L)
        | some res => (some res.1, markAsProcessed fs L path)

/-! ### Batch driver (`CsvPreprocessor.process_all_files_to_db`,
lines 367-411) -/

/-- The observable state of one run: the ledger, the rows accumulated in the
target table, the record total of the run, and the files handed to
`process_file` in order. -/
structure RunState where
  ledger : Ledger
  dbRows : List LongRecord
  total : Nat
  attempted : List String
deriving DecidableEq

/-- One file inside a batch (lines 392-402): call `process_file`; when it
returns data, import it into the store (`ok path` is the import outcome) and
add the record count on success.  The ledger update made inside
`process_file` is kept in every case. -/
def stepFile (cfg : PreprocessorConfig) (fs : FsModel) (ok : String → Bool)
    (st : RunState) (path : String) : RunState :=
  let res := processFile cfg fs st.ledger path
  match res.1 with
  | none => { st with ledger := res.2, attempted := st.attempted ++ [path] }
  | some recs =>
    if ok path then
      { ledger := res.2
        dbRows := st.dbRows ++ recs
        total := st.total + recs.length
        attempted := st.attempted ++ [path] }
    else
      { st with ledger := res.2, attempted := st.attempted ++ [path] }

/-- The batch loop (lines 383-411): the candidates are partitioned into
batches of `batchSize` and processed strictly in order, one batch fully
completed before the next begins (the per-batch logging and garbage
collection have no observable effect on the state). -/
def runBatches (cfg : PreprocessorConfig) (fs : FsModel) (ok : String → Bool)
    (batchSize : Nat) (st : RunState) (files : List String) : RunState :=
  (chunks batchSize files).foldl (fun s batch => batch.foldl (stepFile cfg fs ok) s) st

/-- A fresh run starting from a persisted ledger. -/
def initState (L : Ledger) : RunState :=
  ⟨L, [], 0, []⟩

/-- A second invocation of the process: the ledger and the store survive, the
run counter starts at zero. -/
def secondRunStart (s : RunState) : RunState :=
  ⟨s.ledger, s.dbRows, 0, []⟩

def firstRun (cfg : PreprocessorConfig) (fs : FsModel) (ok : String → Bool)
    (bs : Nat) (L0 : Ledger) (files : List String) : RunState :=
  runBatches cfg fs ok bs (initState L0) files

def rerun (cfg : PreprocessorConfig) (fs : FsModel) (ok1 ok2 : String → Bool)
    (bs : Nat) (L0 : Ledger) (files : List String) : RunState :=
  runBatches cfg fs ok2 bs (secondRunStart (firstRun cfg fs ok1 bs L0 files)) files

/-! ### Duplicate compaction (`process_all_files_to_db`, lines 417-521): the
date-partitioned `ROW_NUMBER() OVER (PARTITION BY TIME, SENSOR_ID ORDER BY
TIME)` pass.  Within a partition every row has the same TIME, so the ORDER BY
does not determine an order: the scan order the store happens to use is an
explicit parameter `scan`, constrained only to be a permutation. -/

def rowKey (r : LongRecord) : TimeVal × String :=
  (r.TIME, r.SENSOR_ID)

def keyMatches (k : TimeVal × String) (r : LongRecord) : Bool :=
  decide (rowKey r = k)

/-- The day-truncation `DATE_TRUNC` of a TIME value: defined on parsed timestamps. -/
def dayOfTime : TimeVal → Option (Nat × Nat × Nat)
  | TimeVal.dt t => some (t.year, t.month, t.day)
  | TimeVal.text _ => none

def dayLe (a b : Nat × Nat × Nat) : Bool :=
  decide (a.1 < b.1 ∨ (a.1 = b.1 ∧ (a.2.1 < b.2.1 ∨ (a.2.1 = b.2.1 ∧ a.2.2 ≤ b.2.2))))

def insertAsc (d : Nat × Nat × Nat) : List (Nat × Nat × Nat) → List (Nat × Nat × Nat)
  | [] => [d]
  | e :: es => if dayLe d e then d :: e :: es else e :: insertAsc d es

/-- Ascending sort of the day list (`ORDER BY date_day`). -/
def sortDays (l : List (Nat × Nat × Nat)) : List (Nat × Nat × Nat) :=
  l.foldr insertAsc []

/-- DISTINCT: keep the first occurrence of each element. -/
def firstUniqueAux [DecidableEq α] (seen : List α) : List α → List α
  | [] => []
  | a :: l =>
    if a ∈ seen then firstUniqueAux seen l
    else a :: firstUniqueAux (a :: seen) l

/-- The distinct day list of the table, ascending (`SELECT DISTINCT` of the day-truncated TIME, `ORDER BY date_day`). -/
def distinctDays (table : List LongRecord) : List (Nat × Nat × Nat) :=
  sortDays (firstUniqueAux [] (table.filterMap (fun r => dayOfTime r.TIME)))

/-- The rows of one calendar day. -/
def rowsOfDay (table : List LongRecord) (d : Nat × Nat × Nat) : List LongRecord :=
  table.filter (fun r => decide (dayOfTime r.TIME = some d))

/-- `WHERE t.rn = 1`: keep the rows whose (TIME, SENSOR_ID) key has not been
seen earlier in the scanned sequence. -/
def keepFirstByKey (seen : List (TimeVal × String)) :
    List LongRecord → List LongRecord
  | [] => []
  | r :: rs =>
    if rowKey r ∈ seen then keepFirstByKey seen rs
    else r :: keepFirstByKey (rowKey r :: seen) rs

/-- The whole compaction: per ascending day, scan the rows of that day in the
order the store produces, keep the first row of each (TIME, SENSOR_ID) key,
and insert the survivors into the shadow table, which finally replaces the
target table.  Deleting each processed day from the target does not affect
the later day selections, so the selections read from the original table. -/
def compactWith (scan : List LongRecord → List LongRecord)
    (table : List LongRecord) : List LongRecord :=
  (distinctDays table).flatMap (fun d => keepFirstByKey [] (scan (rowsOfDay table d)))

/-- The dedup claim as stated: for every table and every valid scan order,
each survivor of the compaction is the first row of its key in original
insertion order. -/
def dedupFirstWinsClaim : Prop :=
  ∀ (table : List LongRecord) (scan : List LongRecord → List LongRecord),
    (∀ l, List.Perm (scan l) l) →
    ∀ r ∈ compactWith scan table,
      table.find? (fun x => decide (rowKey x = rowKey r)) = some r

/-! ### The record set described by the wide-to-long cardinality claim -/

/-- The records the wide-to-long claim describes: for every sensor and every
data row, one record whose TIME derives from the first field of the row (by
the two-format datetime fallback), whose VALUE is the value of that sensor
column in the frame, and whose metadata fields are copied verbatim. -/
def claimedRecords (cfg : PreprocessorConfig) (data : ReadData)
    (fileName : String) : List LongRecord :=
  let timeVals := (parseTimeColumn (data.df.rows.map (fun r => r.headD ""))).1
  data.headers.sensor_ids.enum.flatMap (fun p =>
    (timeVals.zip (data.df.rows.map (fun r => dictGet data.df.header r p.2))).map
      (fun q =>
        { PLANT := cfg.plant
          MACHINE_ID := cfg.machine_id
          DATA_LABEL := cfg.data_label
          TIME := q.1
          SENSOR_ID := p.2
          SENSOR_NAME := data.headers.sensor_names.getD p.1 ""
          SENSOR_UNIT := data.headers.sensor_units.getD p.1 ""
          VALUE := q.2
          file_name := fileName }))

/-! ### Concrete instances used by counterexamples and witnesses -/

def exCfg : PreprocessorConfig :=
  ⟨"P1", "M1", "D1"⟩

def exContent : List String :=
  [",S1", ",N1", ",U1", "2024/01/02 03:04:05,7"]

/-- A filesystem with one readable file; every other identity is
unreadable. -/
def exFs : FsModel :=
  fun p => if p = "a.csv" then some exContent else none

def exTimestamp : Timestamp :=
  ⟨2024, 1, 1, 0, 0, 0⟩

def cexR1 : LongRecord :=
  ⟨"", "", "", TimeVal.dt exTimestamp, "S1", "", "", "1", ""⟩

def cexR2 : LongRecord :=
  ⟨"", "", "", TimeVal.dt exTimestamp, "S1", "", "", "2", ""⟩

/-- Two records with identical (TIME, SENSOR_ID) and differing VALUE, in
insertion order. -/
def cexTable : List LongRecord :=
  [cexR1, cexR2]

def twelveFiles : List String :=
  ["f01", "f02", "f03", "f04", "f05", "f06", "f07", "f08", "f09", "f10", "f11", "f12"]

def twoFiles : List String :=
  ["a.csv", "b.csv"]

def exData : ReadData :=
  ⟨⟨["S1", "S2"], ["N1", "N2"], ["U1", "U2"]⟩,
   ⟨["TIME", "S1", "S2"],
    [["2024/01/02 03:04:05", "1", "2"], ["2024/01/02 03:04:06", "3", "4"]]⟩⟩

/-- Four valid lines followed by a data line with too few fields. -/
def c4Lines : List String :=
  [",S1", ",N1", ",U1", "t,1", "x"]

/-- Header lines with differing field counts (2 sensor ids, 1 name). -/
def c9Lines : List String :=
  [",S1,S2", ",NameA", ",U1,U2", "t,1,2"]

/-! ## General lemmas about the embedding -/

theorem chunksAux_join (bs : Nat) :
    ∀ (fuel : Nat) (l : List α), l.length ≤ fuel → (chunksAux bs fuel l).flatten = l := by
  intro fuel
  induction fuel with
  | zero =>
    intro l hl
    have hnil : l = [] := List.eq_nil_of_length_eq_zero (Nat.le_zero.mp hl)
    subst hnil
    rfl
  | succ f ih =>
    intro l hl
    cases l with
    | nil => rfl
    | cons x xs =>
      have h1 : xs.length ≤ f := by
        simp only [List.length_cons] at hl
        omega
      have hx : (xs.drop (bs - 1)).length ≤ f := by
        rw [List.length_drop]
        omega
      show (x :: xs.take (bs - 1)) ++ (chunksAux bs f (xs.drop (bs - 1))).flatten = x :: xs
      rw [ih _ hx]
      simp [List.take_append_drop]

theorem chunks_join (bs : Nat) (l : List α) : (chunks bs l).flatten = l :=
  chunksAux_join bs l.length l (Nat.le_refl _)

theorem foldl_foldl_join (f : β → α → β) :
    ∀ (L : List (List α)) (st : β),
      L.foldl (fun s b => b.foldl f s) st = L.flatten.foldl f st := by
  intro L
  induction L with
  | nil => intro st; rfl
  | cons b T ih =>
    intro st
    show T.foldl _ (b.foldl f st) = (b ++ T.flatten).foldl f st
    rw [List.foldl_append, ih]

/-- The batch loop is the plain left fold of the per-file step over the
candidate list: batching only groups the iterations. -/
theorem runBatches_eq_foldl (cfg : PreprocessorConfig) (fs : FsModel)
    (ok : String → Bool) (bs : Nat) (st : RunState) (files : List String) :
    runBatches cfg fs ok bs st files = files.foldl (stepFile cfg fs ok) st := by
  unfold runBatches
  rw [foldl_foldl_join, chunks_join]

theorem stepFile_attempted (cfg : PreprocessorConfig) (fs : FsModel)
    (ok : String → Bool) (st : RunState) (p : String) :
    (stepFile cfg fs ok st p).attempted = st.attempted ++ [p] := by
  unfold stepFile
  dsimp only
  split
  · rfl
  · split <;> rfl

theorem stepFile_ledger (cfg : PreprocessorConfig) (fs : FsModel)
    (ok : String → Bool) (st : RunState) (p : String) :
    (stepFile cfg fs ok st p).ledger = (processFile cfg fs st.ledger p).2 := by
  unfold stepFile
  dsimp only
  split
  · rfl
  · split <;> rfl

theorem foldl_attempted (cfg : PreprocessorConfig) (fs : FsModel)
    (ok : String → Bool) :
    ∀ (files : List String) (st : RunState),
      (files.foldl (stepFile cfg fs ok) st).attempted = st.attempted ++ files := by
  intro files
  induction files with
  | nil => intro st; simp
  | cons f t ih =>
    intro st
    show (t.foldl _ (stepFile cfg fs ok st f)).attempted = st.attempted ++ f :: t
    rw [ih, stepFile_attempted]
    simp

/-- `process_file`, written as the ledger gate applied to the
ledger-independent preprocessing outcome. -/
theorem processFile_eq (cfg : PreprocessorConfig) (fs : FsModel) (L : Ledger)
    (p : String) :
    processFile cfg fs L p =
      (if isProcessed fs L p then none else preprocessResult cfg fs p,
       if isProcessed fs L p = false ∧ (preprocessResult cfg fs p).isSome = true
         then markAsProcessed fs L p else L) := by
  unfold processFile preprocessResult
  cases hp : isProcessed fs L p with
  | true => simp
  | false =>
    simp only [Bool.false_eq_true, if_false, true_and]
    cases hfs : fs p with
    | none => simp [hfs]
    | some lines =>
      cases hr : (readSpecialCsv lines).1 with
      | none => simp [hr]
      | some data =>
        cases ht : transformToVertical cfg data p with
        | none => simp [hr, ht]
        | some res => simp [hr, ht]

theorem find?_filter_ne (p q : String) (h : q ≠ p) :
    ∀ (L : Ledger),
      (L.filter (fun e => decide (e.1 ≠ p))).find? (fun e => decide (e.1 = q)) =
        L.find? (fun e => decide (e.1 = q)) := by
  intro L
  induction L with
  | nil => rfl
  | cons e T ih =>
    by_cases hep : e.1 = p
    · have hfp : ¬ ((fun e : String × String => decide (e.1 ≠ p)) e = true) := by
        simp [hep]
      have h2 : ¬ ((fun e : String × String => decide (e.1 = q)) e = true) := by
        simp only [decide_eq_true_eq]
        intro hq
        exact h (hq ▸ hep)
      rw [@List.filter_cons_of_neg _ (fun e : String × String => decide (e.1 ≠ p)) e T hfp,
        ih, @List.find?_cons_of_neg _ (fun e : String × String => decide (e.1 = q)) e T h2]
    · have hfp : (fun e : String × String => decide (e.1 ≠ p)) e = true := by
        simp [hep]
      rw [@List.filter_cons_of_pos _ (fun e : String × String => decide (e.1 ≠ p)) e T hfp]
      by_cases heq : e.1 = q
      · have h2 : (fun e : String × String => decide (e.1 = q)) e = true := by
          simp [heq]
        rw [@List.find?_cons_of_pos _ (fun e : String × String => decide (e.1 = q)) e _ h2,
          @List.find?_cons_of_pos _ (fun e : String × String => decide (e.1 = q)) e T h2]
      · have h2 : ¬ ((fun e : String × String => decide (e.1 = q)) e = true) := by
          simp [heq]
        rw [@List.find?_cons_of_neg _ (fun e : String × String => decide (e.1 = q)) e _ h2,
          @List.find?_cons_of_neg _ (fun e : String × String => decide (e.1 = q)) e T h2, ih]

theorem ledgerLookup_mark (fs : FsModel) (L : Ledger) (p q : String) :
    ledgerLookup (markAsProcessed fs L p) q =
      if q = p then some (calculateFileHash fs p) else ledgerLookup L q := by
  unfold markAsProcessed ledgerLookup
  by_cases hqp : q = p
  · subst hqp
    rw [@List.find?_cons_of_pos _ (fun e : String × String => decide (e.1 = q))
      (q, calculateFileHash fs q) _ (by simp)]
    simp
  · have h2 : ¬ ((fun e : String × String => decide (e.1 = q))
        (p, calculateFileHash fs p) = true) := by
      simp only [decide_eq_true_eq]
      exact fun hh => hqp hh.symm
    rw [@List.find?_cons_of_neg _ (fun e : String × String => decide (e.1 = q))
      (p, calculateFileHash fs p) _ h2, find?_filter_ne p q hqp, if_neg hqp]

/-- `_is_processed` returns true exactly when the ledger stores the hash of
the current content for this identity. -/
theorem isProcessed_iff (fs : FsModel) (L : Ledger) (p : String) :
    isProcessed fs L p = true ↔
      ledgerLookup L p = some (calculateFileHash fs p) := by
  unfold isProcessed
  cases h : ledgerLookup L p with
  | none => simp
  | some s => simp

theorem stepFile_ledger_cases (cfg : PreprocessorConfig) (fs : FsModel)
    (ok : String → Bool) (st : RunState) (p : String) :
    (stepFile cfg fs ok st p).ledger =
      if isProcessed fs st.ledger p = false ∧ (preprocessResult cfg fs p).isSome = true
        then markAsProcessed fs st.ledger p else st.ledger := by
  rw [stepFile_ledger, processFile_eq]

theorem goodEntry_mark (fs : FsModel) (L : Ledger) (p q : String)
    (h : ledgerLookup L q = some (calculateFileHash fs q)) :
    ledgerLookup (markAsProcessed fs L p) q = some (calculateFileHash fs q) := by
  rw [ledgerLookup_mark]
  by_cases hqp : q = p
  · subst hqp
    simp
  · rw [if_neg hqp]
    exact h

theorem stepFile_goodEntry (cfg : PreprocessorConfig) (fs : FsModel)
    (ok : String → Bool) (st : RunState) (p q : String)
    (h : ledgerLookup st.ledger q = some (calculateFileHash fs q)) :
    ledgerLookup (stepFile cfg fs ok st p).ledger q =
      some (calculateFileHash fs q) := by
  rw [stepFile_ledger_cases]
  split
  · exact goodEntry_mark fs st.ledger p q h
  · exact h

/-- A correct ledger entry survives any sequence of per-file steps. -/
theorem foldl_goodEntry_mono (cfg : PreprocessorConfig) (fs : FsModel)
    (ok : String → Bool) :
    ∀ (files : List String) (st : RunState) (q : String),
      ledgerLookup st.ledger q = some (calculateFileHash fs q) →
      ledgerLookup (files.foldl (stepFile cfg fs ok) st).ledger q =
        some (calculateFileHash fs q) := by
  intro files
  induction files with
  | nil => intro st q h; exact h
  | cons f t ih =>
    intro st q h
    exact ih _ q (stepFile_goodEntry cfg fs ok st f q h)

/-- After a run, every candidate whose read-and-transform succeeds has its
current content hash in the ledger, whatever the import outcomes were. -/
theorem foldl_establishes (cfg : PreprocessorConfig) (fs : FsModel)
    (ok : String → Bool) :
    ∀ (files : List String) (st : RunState) (p : String), p ∈ files →
      (preprocessResult cfg fs p).isSome = true →
      ledgerLookup (files.foldl (stepFile cfg fs ok) st).ledger p =
        some (calculateFileHash fs p) := by
  intro files
  induction files with
  | nil => intro st p h; exact absurd h (List.not_mem_nil p)
  | cons f t ih =>
    intro st p hmem hsome
    rcases List.mem_cons.mp hmem with rfl | ht
    · rw [List.foldl_cons]
      apply foldl_goodEntry_mono
      rw [stepFile_ledger_cases]
      cases hp : isProcessed fs st.ledger p with
      | true =>
        rw [if_neg (by simp [hp])]
        exact (isProcessed_iff fs st.ledger p).mp hp
      | false =>
        rw [if_pos ⟨rfl, hsome⟩, ledgerLookup_mark, if_pos rfl]
    · exact ih _ p ht hsome

/-- A step on a file that either cannot be preprocessed or whose current hash
is already in the ledger changes nothing but the attempted list. -/
theorem stepFile_skip (cfg : PreprocessorConfig) (fs : FsModel)
    (ok : String → Bool) (st : RunState) (p : String)
    (hgood : (preprocessResult cfg fs p).isSome = true →
      ledgerLookup st.ledger p = some (calculateFileHash fs p)) :
    stepFile cfg fs ok st p = { st with attempted := st.attempted ++ [p] } := by
  have hpf : processFile cfg fs st.ledger p = (none, st.ledger) := by
    rw [processFile_eq]
    cases hq : preprocessResult cfg fs p with
    | none =>
      cases hp : isProcessed fs st.ledger p with
      | true => simp [hp, hq]
      | false => simp [hp, hq]
    | some v =>
      have hpro : isProcessed fs st.ledger p = true :=
        (isProcessed_iff fs st.ledger p).mpr (hgood (by simp [hq]))
      simp [hpro]
  unfold stepFile
  rw [hpf]

/-- A second pass over files whose successful preprocessing is already
recorded leaves the ledger, the store and the total unchanged. -/
theorem foldl_second_noop (cfg : PreprocessorConfig) (fs : FsModel)
    (ok : String → Bool) :
    ∀ (files : List String) (st : RunState),
      (∀ p ∈ files, (preprocessResult cfg fs p).isSome = true →
        ledgerLookup st.ledger p = some (calculateFileHash fs p)) →
      (files.foldl (stepFile cfg fs ok) st).ledger = st.ledger ∧
      (files.foldl (stepFile cfg fs ok) st).dbRows = st.dbRows ∧
      (files.foldl (stepFile cfg fs ok) st).total = st.total := by
  intro files
  induction files with
  | nil => intro st _; exact ⟨rfl, rfl, rfl⟩
  | cons f t ih =>
    intro st h
    have hs := stepFile_skip cfg fs ok st f (h f (List.mem_cons_self f t))
    have hrec := ih { st with attempted := st.attempted ++ [f] }
      (fun p hp hq => h p (List.mem_cons_of_mem f hp) hq)
    rw [List.foldl_cons, hs]
    exact hrec

/-- A file whose preprocessing fails is never written to the ledger by a
run. -/
theorem foldl_no_mark (cfg : PreprocessorConfig) (fs : FsModel)
    (ok : String → Bool) :
    ∀ (files : List String) (st : RunState) (p : String),
      preprocessResult cfg fs p = none →
      ledgerLookup (files.foldl (stepFile cfg fs ok) st).ledger p =
        ledgerLookup st.ledger p := by
  intro files
  induction files with
  | nil => intro st p _; rfl
  | cons f t ih =>
    intro st p h
    rw [List.foldl_cons, ih _ p h]
    rw [stepFile_ledger_cases]
    split
    · rename_i hcond
      have hfp : f ≠ p := by
        intro hfp
        subst hfp
        rw [h] at hcond
        simp at hcond
      rw [ledgerLookup_mark, if_neg (fun hh => hfp hh.symm)]
    · rfl

/-! ## Claim C5 -/

/-- C5: a source (plain file or archive member) with fewer than 4 lines makes
the wide-format read fail with the row-count error, and the per-file pipeline
produces zero records for that file. -/
theorem insufficient_rows_rejected (lines : List String) (h : lines.length < 4) :
    readSpecialCsv lines = (none, [insufficientRowsEvent]) ∧
    ∀ (cfg : PreprocessorConfig) (fs : FsModel) (L : Ledger) (p : String),
      fs p = some lines → (processFile cfg fs L p).1 = none := by
  have hread : readSpecialCsv lines = (none, [insufficientRowsEvent]) := by
    rcases lines with _ | ⟨a, _ | ⟨b, _ | ⟨c, _ | ⟨d, t⟩⟩⟩⟩
    · rfl
    · rfl
    · rfl
    · rfl
    · exfalso
      simp only [List.length_cons] at h
      omega
  refine ⟨hread, ?_⟩
  intro cfg fs L p hfs
  have hpre : preprocessResult cfg fs p = none := by
    unfold preprocessResult
    rw [hfs]
    dsimp only
    rw [hread]
  rw [processFile_eq]
  dsimp only
  rw [hpre]
  simp

/-- C5 witness at a concrete 3-line source. -/
theorem insufficient_rows_rejected_witness :
    readSpecialCsv ["a", "b", "c"] = (none, [insufficientRowsEvent]) ∧
    (processFile exCfg (fun _ => some ["a", "b", "c"]) [] "x.csv").1 = none := by
  have h := insufficient_rows_rejected ["a", "b", "c"] (by decide)
  exact ⟨h.1, h.2 exCfg (fun _ => some ["a", "b", "c"]) [] "x.csv" rfl⟩

/-! ## Claim C10 -/

/-- C10: when the content of a file (or archive member) cannot be read, the
hash function returns the empty string instead of raising; consequently the
file reports not-processed whenever its stored ledger digest is non-empty,
while marking it processed records the empty string as its digest. -/
theorem hash_failure_empty_digest (fs : FsModel) (p : String) (L : Ledger)
    (h : fs p = none) :
    calculateFileHash fs p = "" ∧
    (∀ stored, ledgerLookup L p = some stored → stored ≠ "" →
      isProcessed fs L p = false) ∧
    ledgerLookup (markAsProcessed fs L p) p = some "" := by
  have hh : calculateFileHash fs p = "" := by
    unfold calculateFileHash
    rw [h]
  refine ⟨hh, ?_, ?_⟩
  · intro stored hs hne
    unfold isProcessed
    rw [hs, hh]
    simp [hne]
  · rw [ledgerLookup_mark, if_pos rfl, hh]

/-- C10 witness: an unreadable file against a ledger entry with a non-empty
digest. -/
theorem hash_failure_empty_digest_witness :
    calculateFileHash exFs "b.csv" = "" ∧
    isProcessed exFs [("b.csv", "deadbeef")] "b.csv" = false ∧
    ledgerLookup (markAsProcessed exFs [("b.csv", "deadbeef")] "b.csv") "b.csv" =
      some "" := by
  have h := hash_failure_empty_digest exFs "b.csv" [("b.csv", "deadbeef")] (by decide)
  exact ⟨h.1, h.2.1 "deadbeef" (by decide) (by decide), h.2.2⟩

/-! ## Claim C7 -/

/-- C7: with batch size 5 and 12 candidates the batch loop forms 3 batches of
sizes 5, 5, 2 covering the candidates in input order, and every candidate is
handed to the per-file step in input order whatever the per-file outcomes
are, so a failure in the 7th file cannot prevent files 8 through 12 from
being attempted. -/
theorem batch_partition (cfg : PreprocessorConfig) (fs : FsModel)
    (ok : String → Bool) (L0 : Ledger) (files : List String)
    (h12 : files.length = 12) :
    (chunks 5 files).map List.length = [5, 5, 2] ∧
    (chunks 5 files).flatten = files ∧
    (runBatches cfg fs ok 5 (initState L0) files).attempted = files := by
  refine ⟨?_, chunks_join 5 files, ?_⟩
  · obtain ⟨a1, files, rfl⟩ := List.exists_of_length_succ files (show files.length = 11 + 1 by omega)
    simp only [List.length_cons] at h12
    obtain ⟨a2, files, rfl⟩ := List.exists_of_length_succ files (show files.length = 10 + 1 by omega)
    simp only [List.length_cons] at h12
    obtain ⟨a3, files, rfl⟩ := List.exists_of_length_succ files (show files.length = 9 + 1 by omega)
    simp only [List.length_cons] at h12
    obtain ⟨a4, files, rfl⟩ := List.exists_of_length_succ files (show files.length = 8 + 1 by omega)
    simp only [List.length_cons] at h12
    obtain ⟨a5, files, rfl⟩ := List.exists_of_length_succ files (show files.length = 7 + 1 by omega)
    simp only [List.length_cons] at h12
    obtain ⟨a6, files, rfl⟩ := List.exists_of_length_succ files (show files.length = 6 + 1 by omega)
    simp only [List.length_cons] at h12
    obtain ⟨a7, files, rfl⟩ := List.exists_of_length_succ files (show files.length = 5 + 1 by omega)
    simp only [List.length_cons] at h12
    obtain ⟨a8, files, rfl⟩ := List.exists_of_length_succ files (show files.length = 4 + 1 by omega)
    simp only [List.length_cons] at h12
    obtain ⟨a9, files, rfl⟩ := List.exists_of_length_succ files (show files.length = 3 + 1 by omega)
    simp only [List.length_cons] at h12
    obtain ⟨a10, files, rfl⟩ := List.exists_of_length_succ files (show files.length = 2 + 1 by omega)
    simp only [List.length_cons] at h12
    obtain ⟨a11, files, rfl⟩ := List.exists_of_length_succ files (show files.length = 1 + 1 by omega)
    simp only [List.length_cons] at h12
    obtain ⟨a12, files, rfl⟩ := List.exists_of_length_succ files (show files.length = 0 + 1 by omega)
    simp only [List.length_cons] at h12
    have hnil : files = [] := List.eq_nil_of_length_eq_zero (by omega)
    subst hnil
    rfl
  · rw [runBatches_eq_foldl, foldl_attempted]
    rfl

/-- C7 witness at a concrete list of 12 file identities (under the example
filesystem only `a.csv` is readable, so most of these files fail, yet all 12
are attempted in order). -/
theorem batch_partition_witness :
    twelveFiles.length = 12 ∧
    (chunks 5 twelveFiles).map List.length = [5, 5, 2] ∧
    (chunks 5 twelveFiles).flatten = twelveFiles ∧
    (runBatches exCfg exFs (fun _ => true) 5 (initState []) twelveFiles).attempted =
      twelveFiles := by
  have h := batch_partition exCfg exFs (fun _ => true) [] twelveFiles (by decide)
  exact ⟨by decide, h.1, h.2.1, h.2.2⟩

/-! ## Claim C6 -/

/-- C6: the ledger gate holds iff the stored digest equals the current
content digest, and a second run over the same unchanged file set leaves the
store and the ledger unchanged and loads zero additional records. -/
theorem ingest_idempotent (cfg : PreprocessorConfig) (fs : FsModel)
    (ok1 ok2 : String → Bool) (bs : Nat) (L0 : Ledger) (files : List String)
    (hbs : 0 < bs) :
    (∀ (L : Ledger) (p : String),
      isProcessed fs L p = true ↔ ledgerLookup L p = some (calculateFileHash fs p)) ∧
    (rerun cfg fs ok1 ok2 bs L0 files).total = 0 ∧
    (rerun cfg fs ok1 ok2 bs L0 files).dbRows = (firstRun cfg fs ok1 bs L0 files).dbRows ∧
    (rerun cfg fs ok1 ok2 bs L0 files).ledger = (firstRun cfg fs ok1 bs L0 files).ledger := by
  have hgood : ∀ p ∈ files, (preprocessResult cfg fs p).isSome = true →
      ledgerLookup (secondRunStart (firstRun cfg fs ok1 bs L0 files)).ledger p =
        some (calculateFileHash fs p) := by
    intro p hp hq
    show ledgerLookup (firstRun cfg fs ok1 bs L0 files).ledger p = _
    unfold firstRun
    rw [runBatches_eq_foldl]
    exact foldl_establishes cfg fs ok1 files (initState L0) p hp hq
  have hn := foldl_second_noop cfg fs ok2 files
    (secondRunStart (firstRun cfg fs ok1 bs L0 files)) hgood
  refine ⟨fun L p => isProcessed_iff fs L p, ?_, ?_, ?_⟩
  · unfold rerun
    rw [runBatches_eq_foldl]
    exact hn.2.2
  · unfold rerun
    rw [runBatches_eq_foldl]
    exact hn.2.1
  · unfold rerun
    rw [runBatches_eq_foldl]
    exact hn.1

/-- C6 witness: a readable and an unreadable file, run twice. -/
theorem ingest_idempotent_witness :
    (rerun exCfg exFs (fun _ => true) (fun _ => true) 5 [] twoFiles).total = 0 ∧
    (rerun exCfg exFs (fun _ => true) (fun _ => true) 5 [] twoFiles).ledger =
      (firstRun exCfg exFs (fun _ => true) 5 [] twoFiles).ledger := by
  have h := ingest_idempotent exCfg exFs (fun _ => true) (fun _ => true) 5 [] twoFiles
    (by decide)
  exact ⟨h.2.1, h.2.2.2⟩

/-! ## Claim C1 -/

/-- C1 counterexample: one readable file whose store import fails.  The run
imports nothing (the table stays empty, the total is 0), yet the file is in
the ledger and reports processed, so it would not be retried; this refutes
the claim that a file is marked processed only after its records are
successfully imported. -/
theorem mark_before_import_counterexample :
    (runBatches exCfg exFs (fun _ => false) 5 (initState []) ["a.csv"]).total = 0 ∧
    (runBatches exCfg exFs (fun _ => false) 5 (initState []) ["a.csv"]).dbRows = [] ∧
    isProcessed exFs
      (runBatches exCfg exFs (fun _ => false) 5 (initState []) ["a.csv"]).ledger
      "a.csv" = true := by
  refine ⟨by decide, by decide, by decide⟩

/-- C1 amended: a file is marked processed as soon as its read and transform
succeed, before and independently of the store import (`process_file` marks
at line 161, the import happens afterwards at line 396); a file whose read or
transform fails is not marked and keeps its prior ledger state, so only those
files are retried. -/
theorem marked_processed_regardless_of_import (cfg : PreprocessorConfig)
    (fs : FsModel) (ok : String → Bool) (bs : Nat) (L0 : Ledger)
    (files : List String) (p : String) (hbs : 0 < bs) (hp : p ∈ files) :
    ((preprocessResult cfg fs p).isSome = true →
      isProcessed fs (runBatches cfg fs ok bs (initState L0) files).ledger p = true) ∧
    (preprocessResult cfg fs p = none →
      ledgerLookup (runBatches cfg fs ok bs (initState L0) files).ledger p =
        ledgerLookup L0 p) := by
  constructor
  · intro hs
    rw [runBatches_eq_foldl]
    exact (isProcessed_iff fs _ p).mpr
      (foldl_establishes cfg fs ok files (initState L0) p hp hs)
  · intro hnone
    rw [runBatches_eq_foldl]
    exact foldl_no_mark cfg fs ok files (initState L0) p hnone

/-- C1 amended witness: the marked-despite-failed-import instance. -/
theorem marked_processed_regardless_of_import_witness :
    isProcessed exFs
      (runBatches exCfg exFs (fun _ => false) 5 (initState []) ["a.csv"]).ledger
      "a.csv" = true :=
  (marked_processed_regardless_of_import exCfg exFs (fun _ => false) 5 [] ["a.csv"]
    "a.csv" (by decide) (by decide)).1 (by decide)

/-! ## Claim C4 -/

/-- C4 counterexample: in `c4Lines` the data line "x" has 1 field against 2
columns and is dropped, yet the reader emits no log event at all — in
particular no debug-level entry for the dropped line.  This refutes the part
of the claim asserting a debug-level log entry. -/
theorem short_line_no_debug_log_counterexample :
    ((readSpecialCsv c4Lines).1.map (fun d => d.df.rows)) = some [["t", "1"]] ∧
    (readSpecialCsv c4Lines).2 = [] := by
  exact ⟨by decide, by decide⟩

/-- C4 amended: for every data line, exactly one trailing comma is stripped
when the stripped line ends with a comma; the line is split on commas with
each field trimmed; it is accepted iff its field count is at least the column
count (1 TIME column plus the number of sensor ids), fields assigned
positionally with surplus fields ignored; and lines with too few fields are
dropped silently with no log entry of any kind. -/
theorem data_line_handling (l0 l1 l2 d0 : String) (ds : List String) :
    (∃ data, readSpecialCsv (l0 :: l1 :: l2 :: d0 :: ds) = (some data, []) ∧
      data.df.header.length = 1 + data.headers.sensor_ids.length ∧
      data.df.rows = (d0 :: ds).filterMap
        (fun line => processRow data.df.header (stripTrailingComma line))) ∧
    (∀ cols line, (processRow cols line).isSome = true ↔
      cols.length ≤ (lineValues line).length) ∧
    (∀ cols line row, processRow cols line = some row →
      row = (lineValues line).take cols.length) ∧
    (∀ line, endsWithComma (trimS line) = true →
      stripTrailingComma line = ⟨(trimS line).data.dropLast⟩) ∧
    (∀ line, endsWithComma (trimS line) = false → stripTrailingComma line = line) := by
  refine ⟨⟨_, rfl, ?_, ?_⟩, ?_, ?_, ?_, ?_⟩
  · simp [Nat.add_comm]
  · rw [List.filterMap_map]
    rfl
  · intro cols line
    by_cases hc : cols.length ≤ (lineValues line).length <;> simp [processRow, hc]
  · intro cols line row h
    unfold processRow at h
    dsimp only at h
    split at h
    · injection h with h2
      exact h2.symm
    · exact Option.noConfusion h
  · intro line h
    simp [stripTrailingComma, h]
  · intro line h
    simp [stripTrailingComma, h]

/-- C4 amended witness: a slice of the amended theorem at a concrete file
whose data line carries one trailing comma. -/
theorem data_line_handling_witness :
    (readSpecialCsv [",S1", ",N1", ",U1", "t,1,"]).2 = [] ∧
    stripTrailingComma "t,1," = ⟨(trimS "t,1,").data.dropLast⟩ := by
  obtain ⟨⟨data, heq, _, _⟩, _, _, hstrip, _⟩ :=
    data_line_handling ",S1" ",N1" ",U1" "t,1," []
  exact ⟨by rw [heq], hstrip "t,1," (by decide)⟩

/-! ## Claim C9 -/

/-- C9 counterexample: `c9Lines` declares 2 sensor ids but only 1 sensor
name; the reader accepts it, producing a table with header arrays of lengths
2 and 1, and that table is handed to the transformer, which processes it
(emitting 1 record).  This refutes the invariant that the three header
arrays are always of equal length. -/
theorem header_arity_counterexample :
    ((readSpecialCsv c9Lines).1.map
      (fun d => (d.headers.sensor_ids.length, d.headers.sensor_names.length))) =
      some (2, 1) ∧
    ((readSpecialCsv c9Lines).1.bind
      (fun d => (transformToVertical exCfg d "f.csv").map (fun p => p.1.length))) =
      some 1 := by
  exact ⟨by decide, by decide⟩

/-- C9 amended: the three header arrays are of equal length whenever the
three header lines split into equally many comma-separated fields; the reader
does not enforce this in general. -/
theorem header_arity_conditional (l0 l1 l2 d0 : String) (ds : List String)
    (h1 : (parseHeaderLine l0).length = (parseHeaderLine l1).length)
    (h2 : (parseHeaderLine l0).length = (parseHeaderLine l2).length) :
    ∃ data, (readSpecialCsv (l0 :: l1 :: l2 :: d0 :: ds)).1 = some data ∧
      data.headers.sensor_ids.length = data.headers.sensor_names.length ∧
      data.headers.sensor_ids.length = data.headers.sensor_units.length := by
  refine ⟨_, rfl, ?_, ?_⟩
  · simp [List.length_tail, h1]
  · simp [List.length_tail, h2]

/-- C9 amended witness at a concrete file with matching header arities. -/
theorem header_arity_conditional_witness :
    ((readSpecialCsv [",A,B", ",NA,NB", ",UA,UB", "t,1,2"]).1.map
      (fun d =>
        decide (d.headers.sensor_ids.length = d.headers.sensor_names.length) &&
        decide (d.headers.sensor_ids.length = d.headers.sensor_units.length))) =
      some true := by
  obtain ⟨data, heq, ha, hb⟩ :=
    header_arity_conditional ",A,B" ",NA,NB" ",UA,UB" "t,1,2" [] (by decide) (by decide)
  rw [heq]
  have hnu : data.headers.sensor_names.length = data.headers.sensor_units.length := by
    rw [← ha, ← hb]
  simp [ha, hb, hnu]

/-! ## Claim C8 -/

/-- C8: the TIME column conversion first attempts the slash format
`%Y/%m/%d %H:%M:%S`, then the dash format `%Y-%m-%d %H:%M:%S`; when both
fail the TIME values are kept as the original text and a warning is logged;
and unparsable timestamps never make the transform of a non-empty frame
fail. -/
theorem timestamp_fallback (col : List String) :
    (∀ ts, mapOption (parseDateTimeSep '/') col = some ts →
      parseTimeColumn col = (ts.map TimeVal.dt, [])) ∧
    (mapOption (parseDateTimeSep '/') col = none →
      ∀ ts, mapOption (parseDateTimeSep '-') col = some ts →
        parseTimeColumn col = (ts.map TimeVal.dt, [])) ∧
    (mapOption (parseDateTimeSep '/') col = none →
      mapOption (parseDateTimeSep '-') col = none →
      parseTimeColumn col = (col.map TimeVal.text, [timeParseWarnEvent])) ∧
    (∀ (cfg : PreprocessorConfig) (data : ReadData) (fn : String),
      data.df.rows ≠ [] → (transformToVertical cfg data fn).isSome = true) := by
  refine ⟨?_, ?_, ?_, ?_⟩
  · intro ts h
    unfold parseTimeColumn
    rw [h]
  · intro h1 ts h2
    unfold parseTimeColumn
    rw [h1, h2]
  · intro h1 h2
    unfold parseTimeColumn
    rw [h1, h2]
  · intro cfg data fn hne
    unfold transformToVertical
    split
    · rename_i heq
      exact absurd heq hne
    · rfl

/-- C8 witness: a parsing column, a failing column with the kept text and the
warning, and a transform that succeeds. -/
theorem timestamp_fallback_witness :
    parseTimeColumn ["2024/01/02 03:04:05"] =
      ([TimeVal.dt ⟨2024, 1, 2, 3, 4, 5⟩], []) ∧
    parseTimeColumn ["x"] = ([TimeVal.text "x"], [timeParseWarnEvent]) ∧
    (transformToVertical exCfg exData "f").isSome = true := by
  have h1 := timestamp_fallback ["2024/01/02 03:04:05"]
  have h2 := timestamp_fallback ["x"]
  exact ⟨h1.1 [⟨2024, 1, 2, 3, 4, 5⟩] (by decide),
    h2.2.2.1 (by decide) (by decide),
    h2.2.2.2 exCfg exData "f" (by decide)⟩

/-! ## Claim C3 -/

theorem mapOption_length (f : α → Option β) :
    ∀ (l : List α) (bs : List β), mapOption f l = some bs → bs.length = l.length := by
  intro l
  induction l with
  | nil =>
    intro bs h
    injection h with h2
    rw [← h2]
    rfl
  | cons a t ih =>
    intro bs h
    unfold mapOption at h
    cases hfa : f a <;> rw [hfa] at h <;>
      cases hmt : mapOption f t <;> rw [hmt] at h
    · exact Option.noConfusion h
    · exact Option.noConfusion h
    · exact Option.noConfusion h
    · injection h with h2
      rw [← h2]
      simp [ih _ hmt]

/-- The TIME-column conversion preserves the number of entries in every
branch. -/
theorem parseTimeColumn_length (col : List String) :
    (parseTimeColumn col).1.length = col.length := by
  unfold parseTimeColumn
  cases h1 : mapOption (parseDateTimeSep '/') col with
  | some ts => simp [mapOption_length _ col ts h1]
  | none =>
    cases h2 : mapOption (parseDateTimeSep '-') col with
    | some ts => simp [mapOption_length _ col ts h2]
    | none => simp

theorem mem_enumFrom_own :
    ∀ (l : List α) (n : Nat) (p : Nat × α), p ∈ l.enumFrom n →
      n ≤ p.1 ∧ p.1 < n + l.length ∧ p.2 ∈ l := by
  intro l
  induction l with
  | nil => intro n p h; exact absurd h (List.not_mem_nil p)
  | cons a t ih =>
    intro n p h
    rcases List.mem_cons.mp h with rfl | ht
    · exact ⟨Nat.le_refl n, by simp [List.length_cons], List.mem_cons_self a t⟩
    · obtain ⟨h1, h2, h3⟩ := ih (n + 1) p ht
      refine ⟨by omega, ?_, List.mem_cons_of_mem a h3⟩
      simp only [List.length_cons]
      omega

theorem mem_enum_own (l : List α) (p : Nat × α) (h : p ∈ l.enum) :
    p.1 < l.length ∧ p.2 ∈ l := by
  obtain ⟨_, h2, h3⟩ := mem_enumFrom_own l 0 p h
  exact ⟨by omega, h3⟩

theorem map_congr_own (l : List α) (f g : α → β) (h : ∀ a ∈ l, f a = g a) :
    l.map f = l.map g := by
  induction l with
  | nil => rfl
  | cons a t ih =>
    simp only [List.map_cons]
    rw [h a (List.mem_cons_self a t), ih (fun b hb => h b (List.mem_cons_of_mem a hb))]

theorem flatMap_map_own (l : List α) (g : α → β) (f : β → List γ) :
    (l.map g).flatMap f = l.flatMap (fun a => f (g a)) := by
  induction l with
  | nil => rfl
  | cons a t ih => simp [ih]

theorem flatMap_congr_own (l : List α) (f g : α → List β)
    (h : ∀ a ∈ l, f a = g a) : l.flatMap f = l.flatMap g := by
  induction l with
  | nil => rfl
  | cons a t ih =>
    simp only [List.flatMap_cons]
    rw [h a (List.mem_cons_self a t), ih (fun b hb => h b (List.mem_cons_of_mem a hb))]

theorem flatten_flatMap_own (M : List (List α)) (f : α → List β) :
    M.flatten.flatMap f = M.flatMap (fun b => b.flatMap f) := by
  induction M with
  | nil => rfl
  | cons b T ih => simp [ih]

/-- Processing the sensors in batches of 10 and concatenating is the same as
one pass over all sensors. -/
theorem chunks_flatMap (bs : Nat) (L : List α) (f : α → List β) :
    (chunks bs L).flatMap (fun b => b.flatMap f) = L.flatMap f := by
  rw [← flatten_flatMap_own, chunks_join]

theorem length_flatMap_own (l : List α) (f : α → List β) :
    (l.flatMap f).length = (l.map (fun a => (f a).length)).sum := by
  induction l with
  | nil => rfl
  | cons a t ih => simp [ih]

theorem sum_map_const_own (l : List α) (n : Nat) (f : α → Nat)
    (h : ∀ a ∈ l, f a = n) : (l.map f).sum = l.length * n := by
  induction l with
  | nil => simp
  | cons a t ih =>
    simp only [List.map_cons, List.sum_cons, List.length_cons]
    rw [h a (List.mem_cons_self a t), ih (fun b hb => h b (List.mem_cons_of_mem a hb))]
    ring

theorem find?_append_of_none (p : α → Bool) :
    ∀ (l1 l2 : List α), l1.find? p = none →
      (l1 ++ l2).find? p = l2.find? p := by
  intro l1
  induction l1 with
  | nil => intro l2 _; rfl
  | cons a t ih =>
    intro l2 h
    cases hpa : p a with
    | true =>
      exfalso
      rw [@List.find?_cons_of_pos _ p a t hpa] at h
      exact Option.noConfusion h
    | false =>
      have hneg : ¬ (p a = true) := by simp [hpa]
      rw [@List.find?_cons_of_neg _ p a t hneg] at h
      rw [List.cons_append, @List.find?_cons_of_neg _ p a (t ++ l2) hneg, ih l2 h]

/-- In a frame whose header is `TIME` followed by sensor ids none of which is
the literal `TIME`, the dictionary lookup of `TIME` in a full row yields the
first field of the row. -/
theorem dictGet_time (ids : List String) (r : List String)
    (ht : "TIME" ∉ ids) (hr : r.length = ids.length + 1) :
    dictGet ("TIME" :: ids) r "TIME" = r.headD "" := by
  cases r with
  | nil =>
    simp only [List.length_nil] at hr
    omega
  | cons v vr =>
    unfold dictGet
    have hz : ("TIME" :: ids).zip (v :: vr) = ("TIME", v) :: ids.zip vr := rfl
    rw [hz, List.reverse_cons]
    have hnone : (ids.zip vr).reverse.find? (fun e => decide (e.1 = "TIME")) = none := by
      rw [List.find?_eq_none]
      intro x hx
      obtain ⟨x1, x2⟩ := x
      have hx2 : (x1, x2) ∈ ids.zip vr := List.mem_reverse.mp hx
      have hx1 : x1 ∈ ids := (List.of_mem_zip hx2).1
      simp only [decide_eq_true_eq]
      intro hxe
      exact ht (hxe ▸ hx1)
    rw [find?_append_of_none _ _ _ hnone,
      @List.find?_cons_of_pos _ (fun e : String × String => decide (e.1 = "TIME"))
        ("TIME", v) [] (by simp)]
    rfl

/-- The sensor loop body on a sensor with metadata and a present column. -/
theorem sensorRecords_valid (cfg : PreprocessorConfig) (data : ReadData)
    (fn : String) (timeVals : List TimeVal) (idx : Nat) (sid : String)
    (h1 : idx < data.headers.sensor_names.length)
    (h2 : idx < data.headers.sensor_units.length)
    (h3 : sid ∈ data.df.header) :
    sensorRecords cfg data fn timeVals idx sid =
      ((timeVals.zip (data.df.rows.map (fun r => dictGet data.df.header r sid))).map
        (fun q =>
          { PLANT := cfg.plant
            MACHINE_ID := cfg.machine_id
            DATA_LABEL := cfg.data_label
            TIME := q.1
            SENSOR_ID := sid
            SENSOR_NAME := data.headers.sensor_names.getD idx ""
            SENSOR_UNIT := data.headers.sensor_units.getD idx ""
            VALUE := q.2
            file_name := fn }), []) := by
  unfold sensorRecords
  rw [if_pos ⟨h1, h2⟩, if_pos h3]

/-- The number of records the claim describes is sensors times rows,
unconditionally. -/
theorem claimedRecords_length (cfg : PreprocessorConfig) (data : ReadData)
    (fn : String) :
    (claimedRecords cfg data fn).length =
      data.headers.sensor_ids.length * data.df.rows.length := by
  unfold claimedRecords
  dsimp only
  rw [length_flatMap_own,
    sum_map_const_own _ data.df.rows.length _ ?_, List.enum_length]
  intro p _
  rw [List.length_map, List.length_zip, parseTimeColumn_length, List.length_map,
    List.length_map]
  exact Nat.min_self _

/-- Under the well-formedness hypotheses the transform produces exactly the
record list the claim describes, paired with its log events. -/
theorem transform_eq_claimed (cfg : PreprocessorConfig) (data : ReadData)
    (fn : String)
    (hne : data.df.rows ≠ [])
    (hheader : data.df.header = "TIME" :: data.headers.sensor_ids)
    (hlen : ∀ r ∈ data.df.rows, r.length = data.df.header.length)
    (hnm : data.headers.sensor_ids.length ≤ data.headers.sensor_names.length)
    (hun : data.headers.sensor_ids.length ≤ data.headers.sensor_units.length)
    (htime : "TIME" ∉ data.headers.sensor_ids) :
    transformToVertical cfg data fn =
      some (claimedRecords cfg data fn,
        (parseTimeColumn (data.df.rows.map (fun r => dictGet data.df.header r "TIME"))).2 ++
        (data.headers.sensor_ids.enum.map
          (fun p => sensorRecords cfg data fn
            (parseTimeColumn (data.df.rows.map
              (fun r => dictGet data.df.header r "TIME"))).1 p.1 p.2)).flatMap
          Prod.snd) := by
  have htc : data.df.rows.map (fun r => dictGet data.df.header r "TIME") =
      data.df.rows.map (fun r => r.headD "") := by
    apply map_congr_own
    intro r hr
    rw [hheader]
    apply dictGet_time data.headers.sensor_ids r htime
    have hlr := hlen r hr
    rw [hheader] at hlr
    simpa using hlr
  unfold transformToVertical
  split
  · rename_i heq
    exact absurd heq hne
  · dsimp only
    refine congrArg some (Prod.ext ?_ rfl)
    rw [chunks_flatMap, flatMap_map_own]
    unfold claimedRecords
    dsimp only
    apply flatMap_congr_own
    intro p hp
    obtain ⟨hplt, hpmem⟩ := mem_enum_own _ p hp
    rw [sensorRecords_valid cfg data fn _ p.1 p.2 (by omega) (by omega)
      (by rw [hheader]; exact List.mem_cons_of_mem _ hpmem)]
    rw [htc]

/-- C3: for a wide table whose frame columns are TIME followed by the sensor
ids (none of them literally `TIME`), with full rows, at least one data row,
and a name and unit entry for every sensor index, the transform succeeds and
emits exactly `R × S` records — the record list the claim describes, with
TIME derived from the first field of each row, VALUE from the sensor column,
and the metadata literals copied verbatim. -/
theorem transform_cardinality (cfg : PreprocessorConfig) (data : ReadData)
    (fn : String)
    (hne : data.df.rows ≠ [])
    (hheader : data.df.header = "TIME" :: data.headers.sensor_ids)
    (hlen : ∀ r ∈ data.df.rows, r.length = data.df.header.length)
    (hnm : data.headers.sensor_ids.length ≤ data.headers.sensor_names.length)
    (hun : data.headers.sensor_ids.length ≤ data.headers.sensor_units.length)
    (htime : "TIME" ∉ data.headers.sensor_ids) :
    ∃ logs, transformToVertical cfg data fn = some (claimedRecords cfg data fn, logs) ∧
      (claimedRecords cfg data fn).length =
        data.df.rows.length * data.headers.sensor_ids.length :=
  ⟨_, transform_eq_claimed cfg data fn hne hheader hlen hnm hun htime,
    by rw [claimedRecords_length, Nat.mul_comm]⟩

/-- C3 witness: a 2-sensor, 2-row table yields exactly 4 records. -/
theorem transform_cardinality_witness :
    ((transformToVertical exCfg exData "f").map (fun p => p.1.length)) = some 4 := by
  obtain ⟨logs, heq, hlenr⟩ := transform_cardinality exCfg exData "f"
    (by decide) (by decide) (by decide) (by decide) (by decide) (by decide)
  rw [heq]
  simp only [Option.map_some']
  rw [hlenr]
  rfl

/-! ## Claim C2 -/

theorem keepFirstByKey_cons (seen : List (TimeVal × String)) (a : LongRecord)
    (t : List LongRecord) :
    keepFirstByKey seen (a :: t) =
      if rowKey a ∈ seen then keepFirstByKey seen t
      else a :: keepFirstByKey (rowKey a :: seen) t := rfl

theorem keepFirstByKey_subset :
    ∀ (l : List LongRecord) (seen : List (TimeVal × String)) (r : LongRecord),
      r ∈ keepFirstByKey seen l → r ∈ l := by
  intro l
  induction l with
  | nil => intro seen r h; exact absurd h (List.not_mem_nil r)
  | cons a t ih =>
    intro seen r h
    rw [keepFirstByKey_cons] at h
    by_cases hk : rowKey a ∈ seen
    · rw [if_pos hk] at h
      exact List.mem_cons_of_mem a (ih seen r h)
    · rw [if_neg hk] at h
      rcases List.mem_cons.mp h with rfl | h2
      · exact List.mem_cons_self r t
      · exact List.mem_cons_of_mem a (ih _ r h2)

/-- Once a key is in the seen set, no row of that key survives. -/
theorem keepFirstByKey_countP_mem (k : TimeVal × String) :
    ∀ (l : List LongRecord) (seen : List (TimeVal × String)), k ∈ seen →
      (keepFirstByKey seen l).countP (keyMatches k) = 0 := by
  intro l
  induction l with
  | nil => intro seen _; rfl
  | cons a t ih =>
    intro seen hk
    rw [keepFirstByKey_cons]
    by_cases ha : rowKey a ∈ seen
    · rw [if_pos ha]
      exact ih seen hk
    · rw [if_neg ha]
      have hne : keyMatches k a = false := by
        unfold keyMatches
        simp only [decide_eq_false_iff_not]
        intro hh
        exact ha (by rw [hh]; exact hk)
      rw [List.countP_cons, hne, ih (rowKey a :: seen) (List.mem_cons_of_mem _ hk)]
      simp

/-- For a fresh key, the ranking pass keeps exactly one row of that key when
the scanned sequence holds at least one, and none otherwise. -/
theorem keepFirstByKey_countP_not_mem (k : TimeVal × String) :
    ∀ (l : List LongRecord) (seen : List (TimeVal × String)), k ∉ seen →
      (keepFirstByKey seen l).countP (keyMatches k) =
        min (l.countP (keyMatches k)) 1 := by
  intro l
  induction l with
  | nil => intro seen _; rfl
  | cons a t ih =>
    intro seen hk
    rw [keepFirstByKey_cons]
    by_cases ha : rowKey a ∈ seen
    · have hne : keyMatches k a = false := by
        unfold keyMatches
        simp only [decide_eq_false_iff_not]
        intro hh
        exact hk (by rw [← hh]; exact ha)
      rw [if_pos ha, ih seen hk, List.countP_cons, hne]
      simp
    · rw [if_neg ha]
      by_cases hak : rowKey a = k
      · have hpa : keyMatches k a = true := by simp [keyMatches, hak]
        rw [List.countP_cons, List.countP_cons, hpa,
          keepFirstByKey_countP_mem k t (rowKey a :: seen)
            (by rw [← hak]; exact List.mem_cons_self _ _)]
        simp
      · have hpa : keyMatches k a = false := by simp [keyMatches, hak]
        have hk2 : k ∉ rowKey a :: seen := by
          intro hmem
          rcases List.mem_cons.mp hmem with h1 | h2
          · exact hak h1.symm
          · exact hk h2
        rw [List.countP_cons, List.countP_cons, hpa, ih (rowKey a :: seen) hk2]
        simp

theorem insertAsc_perm (d : Nat × Nat × Nat) :
    ∀ (l : List (Nat × Nat × Nat)), List.Perm (insertAsc d l) (d :: l) := by
  intro l
  induction l with
  | nil => exact List.Perm.refl _
  | cons e es ih =>
    show List.Perm (if dayLe d e then d :: e :: es else e :: insertAsc d es) _
    by_cases hc : dayLe d e = true
    · rw [if_pos hc]
    · rw [if_neg hc]
      exact (ih.cons e).trans (List.Perm.swap d e es)

theorem sortDays_perm : ∀ (l : List (Nat × Nat × Nat)), List.Perm (sortDays l) l := by
  intro l
  induction l with
  | nil => exact List.Perm.refl _
  | cons d ds ih =>
    show List.Perm (insertAsc d (sortDays ds)) (d :: ds)
    exact (insertAsc_perm d (sortDays ds)).trans (ih.cons d)

theorem firstUniqueAux_cons [DecidableEq α] (seen : List α) (b : α) (t : List α) :
    firstUniqueAux seen (b :: t) =
      if b ∈ seen then firstUniqueAux seen t
      else b :: firstUniqueAux (b :: seen) t := rfl

theorem mem_firstUniqueAux [DecidableEq α] :
    ∀ (l : List α) (seen : List α) (a : α),
      a ∈ firstUniqueAux seen l ↔ a ∈ l ∧ a ∉ seen := by
  intro l
  induction l with
  | nil =>
    intro seen a
    simp [firstUniqueAux]
  | cons b t ih =>
    intro seen a
    rw [firstUniqueAux_cons]
    by_cases hb : b ∈ seen
    · rw [if_pos hb, ih]
      constructor
      · rintro ⟨h1, h2⟩
        exact ⟨List.mem_cons_of_mem b h1, h2⟩
      · rintro ⟨h1, h2⟩
        rcases List.mem_cons.mp h1 with rfl | h3
        · exact absurd hb h2
        · exact ⟨h3, h2⟩
    · rw [if_neg hb]
      constructor
      · intro h
        rcases List.mem_cons.mp h with rfl | h2
        · exact ⟨List.mem_cons_self a t, hb⟩
        · obtain ⟨h3, h4⟩ := (ih (b :: seen) a).mp h2
          exact ⟨List.mem_cons_of_mem b h3,
            fun hh => h4 (List.mem_cons_of_mem b hh)⟩
      · rintro ⟨h1, h2⟩
        rcases List.mem_cons.mp h1 with rfl | h3
        · exact List.mem_cons_self a _
        · by_cases hab : a = b
          · subst hab
            exact List.mem_cons_self a _
          · refine List.mem_cons_of_mem b ((ih (b :: seen) a).mpr ⟨h3, ?_⟩)
            intro hm
            rcases List.mem_cons.mp hm with h4 | h5
            · exact hab h4
            · exact h2 h5

theorem nodup_firstUniqueAux [DecidableEq α] :
    ∀ (l : List α) (seen : List α), (firstUniqueAux seen l).Nodup := by
  intro l
  induction l with
  | nil => intro seen; exact List.nodup_nil
  | cons b t ih =>
    intro seen
    rw [firstUniqueAux_cons]
    by_cases hb : b ∈ seen
    · rw [if_pos hb]
      exact ih seen
    · rw [if_neg hb]
      refine List.Nodup.cons ?_ (ih (b :: seen))
      intro hmem
      exact ((mem_firstUniqueAux t (b :: seen) b).mp hmem).2 (List.mem_cons_self b seen)

theorem distinctDays_nodup (table : List LongRecord) : (distinctDays table).Nodup :=
  ((sortDays_perm _).nodup_iff).mpr (nodup_firstUniqueAux _ [])

theorem mem_distinctDays (table : List LongRecord) (d : Nat × Nat × Nat) :
    d ∈ distinctDays table ↔ ∃ r ∈ table, dayOfTime r.TIME = some d := by
  unfold distinctDays
  rw [(sortDays_perm _).mem_iff, mem_firstUniqueAux]
  simp [List.mem_filterMap]

theorem countP_flatMap_own (p : α → Bool) (f : β → List α) :
    ∀ (L : List β),
      ((L.flatMap f).countP p) = (L.map (fun b => (f b).countP p)).sum := by
  intro L
  induction L with
  | nil => rfl
  | cons b T ih =>
    simp only [List.flatMap_cons, List.countP_append, List.map_cons, List.sum_cons, ih]

theorem sum_map_single_own [DecidableEq β] :
    ∀ (days : List β) (g : β → Nat) (d0 : β), days.Nodup → d0 ∈ days →
      g d0 = 1 → (∀ d ∈ days, d ≠ d0 → g d = 0) →
      (days.map g).sum = 1 := by
  intro days
  induction days with
  | nil => intro g d0 _ h; exact absurd h (List.not_mem_nil d0)
  | cons d T ih =>
    intro g d0 hnd hmem h1 h0
    simp only [List.map_cons, List.sum_cons]
    rcases List.mem_cons.mp hmem with rfl | hT
    · have hrest : (T.map g).sum = 0 := by
        rw [sum_map_const_own T 0 g ?_]
        · simp
        · intro e he
          apply h0 e (List.mem_cons_of_mem _ he)
          intro hee
          subst hee
          exact (List.nodup_cons.mp hnd).1 he
      rw [h1, hrest]
    · have hd : g d = 0 := by
        apply h0 d (List.mem_cons_self d T)
        intro he
        subst he
        exact (List.nodup_cons.mp hnd).1 hT
      rw [hd, ih g d0 (List.nodup_cons.mp hnd).2 hT h1
        (fun e he hne => h0 e (List.mem_cons_of_mem _ he) hne)]

theorem keyMatches_time {k : TimeVal × String} {r : LongRecord}
    (h : keyMatches k r = true) : r.TIME = k.1 := by
  have h2 : rowKey r = k := by simpa [keyMatches] using h
  exact congrArg Prod.fst h2

/-- The count of rows of a key inside the selection of one day: all of them
when the day is the day of the key, none otherwise. -/
theorem rowsOfDay_countP (table : List LongRecord) (k : TimeVal × String)
    (d : Nat × Nat × Nat) :
    (rowsOfDay table d).countP (keyMatches k) =
      if dayOfTime k.1 = some d then table.countP (keyMatches k) else 0 := by
  unfold rowsOfDay
  rw [List.countP_filter]
  by_cases hd : dayOfTime k.1 = some d
  · rw [if_pos hd]
    have hfun : (fun r => keyMatches k r && decide (dayOfTime r.TIME = some d)) =
        keyMatches k := by
      funext r
      cases hkm : keyMatches k r with
      | false => rfl
      | true =>
        have : dayOfTime r.TIME = some d := by
          rw [keyMatches_time hkm]
          exact hd
        simp [this]
    rw [hfun]
  · rw [if_neg hd]
    have hfun : (fun r => keyMatches k r && decide (dayOfTime r.TIME = some d)) =
        fun _ => false := by
      funext r
      cases hkm : keyMatches k r with
      | false => rfl
      | true =>
        have hrd : ¬ (dayOfTime r.TIME = some d) := by
          rw [keyMatches_time hkm]
          exact hd
        simp [hrd]
    rw [hfun]
    simp [List.countP_eq_zero]

theorem compactWith_subset (scan : List LongRecord → List LongRecord)
    (hscan : ∀ l, List.Perm (scan l) l) (table : List LongRecord) :
    ∀ r ∈ compactWith scan table, r ∈ table := by
  intro r hr
  unfold compactWith at hr
  obtain ⟨d, _, hr2⟩ := List.mem_flatMap.mp hr
  have h3 : r ∈ scan (rowsOfDay table d) := keepFirstByKey_subset _ _ r hr2
  have h4 : r ∈ rowsOfDay table d := ((hscan _).mem_iff).mp h3
  exact List.mem_of_mem_filter h4

/-- C2 amended: for any table whose TIME values are parsed timestamps and any
scan order the store may use for the per-day ranking (any permutation, since
`ORDER BY TIME` is constant inside a (TIME, SENSOR_ID) partition), the
compaction keeps exactly one row of each key present in the table, and every
surviving row is one of the original rows; which row of a duplicate group
survives depends on the scan order and is not guaranteed to be the first
inserted. -/
theorem compact_unique_survivor (table : List LongRecord)
    (scan : List LongRecord → List LongRecord)
    (hscan : ∀ l, List.Perm (scan l) l)
    (hdt : ∀ r ∈ table, (dayOfTime r.TIME).isSome = true)
    (k : TimeVal × String)
    (hk : 0 < table.countP (keyMatches k)) :
    (compactWith scan table).countP (keyMatches k) = 1 ∧
    ∀ r ∈ compactWith scan table, r ∈ table := by
  refine ⟨?_, compactWith_subset scan hscan table⟩
  obtain ⟨r0, hr0mem, hr0k⟩ := List.countP_pos_iff.mp hk
  have hr0time : r0.TIME = k.1 := keyMatches_time hr0k
  have hsome : (dayOfTime k.1).isSome = true := by
    rw [← hr0time]
    exact hdt r0 hr0mem
  obtain ⟨dk, hdk2⟩ := Option.isSome_iff_exists.mp hsome
  unfold compactWith
  rw [countP_flatMap_own]
  apply sum_map_single_own (distinctDays table) _ dk (distinctDays_nodup table)
  · refine (mem_distinctDays table dk).mpr ⟨r0, hr0mem, ?_⟩
    rw [hr0time]
    exact hdk2
  · rw [keepFirstByKey_countP_not_mem k _ [] (List.not_mem_nil k),
      (hscan _).countP_eq, rowsOfDay_countP, if_pos hdk2]
    omega
  · intro d _ hne
    rw [keepFirstByKey_countP_not_mem k _ [] (List.not_mem_nil k),
      (hscan _).countP_eq, rowsOfDay_countP, if_neg ?_]
    · rfl
    · intro hcontra
      rw [hdk2] at hcontra
      exact hne (Option.some_inj.mp hcontra).symm

/-- C2 amended witness: the duplicate pair under the identity scan order. -/
theorem compact_unique_survivor_witness :
    (compactWith (fun l => l) cexTable).countP (keyMatches (rowKey cexR1)) = 1 ∧
    cexR1 ∈ cexTable :=
  ⟨(compact_unique_survivor cexTable (fun l => l) (fun l => List.Perm.refl l)
      (by decide) (rowKey cexR1) (by decide)).1,
    (compact_unique_survivor cexTable (fun l => l) (fun l => List.Perm.refl l)
      (by decide) (rowKey cexR1) (by decide)).2
      cexR1 (by decide)⟩

/-- C2 counterexample: with the reversed scan order — a permutation, hence a
valid realization of the unordered intra-partition scan — the survivor of the
duplicate pair in `cexTable` is the second inserted row, not the first; the
first-insertion-wins claim is therefore false. -/
theorem dedup_first_wins_counterexample : ¬ dedupFirstWinsClaim := by
  intro h
  have hmem : cexR2 ∈ compactWith (fun l => l.reverse) cexTable := by decide
  have hfind := h cexTable (fun l => l.reverse) (fun l => List.reverse_perm l)
    cexR2 hmem
  exact absurd hfind (by decide)

end CsvToDb
